import Mathlib

/-!
Shallow embedding of the homepage photo-rotation selection algorithm
`getRotatedPhotos` from `src/Cursor Projects/CDPv4/src/App.js` (lines 974-1024),
together with proofs and refutations of the specification's claims about it.

Modelling conventions:
* A Firestore photo document is a `Photo` record.  The `tags` field may be
  absent in the document, hence `Option (List String)`; the JavaScript guard
  `photo.tags && ...` is falsy exactly when the field is absent (an empty
  array is truthy), which the `Option` match reproduces.
* `timestamp` is `Option Int`: `t.toDate()` yields a JavaScript `Date`, whose
  numeric value is a (possibly negative) number of milliseconds; a `Date`
  object is always truthy, so `b.timestamp?.toDate() || 0` is `0` exactly
  when the field is absent.
* `Array.prototype.sort` is stable (ES2019) and the comparator
  `(b.timestamp?.toDate() || 0) - (a.timestamp?.toDate() || 0)` orders by
  that key descending; a stable sort by a total key is unique, so it is
  embedded as a stable insertion sort `sortDesc`.
-/

/-- A photo document as read from the store: `{ id, tags, visibility, timestamp, ... }`.
Display-only fields (caption, url, likes) are irrelevant to the selector and omitted. -/
structure Photo where
  id : String
  tags : Option (List String)
  visibility : String
  timestamp : Option Int
  deriving Repr, DecidableEq

/-- JS `photo.tags || []`. -/
def tagsOrEmpty (p : Photo) : List String := p.tags.getD []

/-- JS `photo.tags && photo.tags.includes(player)` (falsy when `tags` is absent). -/
def hasTag (p : Photo) (player : String) : Bool :=
  match p.tags with
  | some ts => ts.contains player
  | none => false

/-- JS `photo.tags && photo.tags.length >= 3`: a team photo has a present
`tags` array with at least 3 entries. -/
def isTeam (p : Photo) : Bool :=
  match p.tags with
  | some ts => 3 ≤ ts.length
  | none => false

/-- JS `photo.tags && photo.tags.length < 3`: an individual photo has a present
`tags` array with fewer than 3 entries.  A record with `tags` absent satisfies
neither predicate. -/
def isIndividual (p : Photo) : Bool :=
  match p.tags with
  | some ts => ts.length < 3
  | none => false

/-- JS `Array.from(new Set(xs))`: deduplicate keeping the first occurrence
(JS `Set` iterates in insertion order). -/
def dedupKeepFirst : List String → List String → List String
  | _, [] => []
  | seen, x :: xs =>
    if x ∈ seen then dedupKeepFirst seen xs
    else x :: dedupKeepFirst (x :: seen) xs

/-- JS `const publicPhotos = photos.filter(photo => photo.visibility === 'public');` -/
def publicPhotos (photos : List Photo) : List Photo :=
  photos.filter (fun p => p.visibility == "public")

/-- JS `const allPlayers = Array.from(new Set(publicPhotos.flatMap(photo => photo.tags || [])));` -/
def allPlayers (photos : List Photo) : List String :=
  dedupKeepFirst [] ((publicPhotos photos).flatMap tagsOrEmpty)

/-- JS `const teamPhotos = publicPhotos.filter(photo => photo.tags && photo.tags.length >= 3);` -/
def teamPhotos (photos : List Photo) : List Photo :=
  (publicPhotos photos).filter isTeam

/-- JS `const individualPhotos = publicPhotos.filter(photo => photo.tags && photo.tags.length < 3);` -/
def individualPhotos (photos : List Photo) : List Photo :=
  (publicPhotos photos).filter isIndividual

/-- JS `rotatedPhotos.push(...teamPhotos.slice(0, Math.min(teamPhotos.length, 6)));`
(the surrounding `if (teamPhotos.length > 0)` is a no-op). -/
def seedPhotos (photos : List Photo) : List Photo :=
  (teamPhotos photos).take 6

/-- JS `const featuredPlayers = new Set(rotatedPhotos.flatMap(photo => photo.tags || []));`
taken at the point where `rotatedPhotos` holds exactly the seeded team photos. -/
def featuredPlayers (photos : List Photo) : List String :=
  (seedPhotos photos).flatMap tagsOrEmpty

/-- JS `const remainingPlayers = allPlayers.filter(player => !featuredPlayers.has(player));` -/
def remainingPlayers (photos : List Photo) : List String :=
  (allPlayers photos).filter (fun pl => !(featuredPlayers photos).contains pl)

/-- The coverage pass:
`remainingPlayers.forEach(player => { const playerPhotos = individualPhotos.filter(...includes(player)); if (playerPhotos.length > 0) rotatedPhotos.push(playerPhotos[0]); });`
`playerPhotos[0]` is the first individual photo carrying the player, i.e. `find?`. -/
def coverageAdds (individuals : List Photo) : List String → List Photo
  | [] => []
  | player :: rest =>
    match individuals.find? (fun p => hasTag p player) with
    | some q => q :: coverageAdds individuals rest
    | none => coverageAdds individuals rest

/-- Working selection after the seed and coverage passes. -/
def afterCoverage (photos : List Photo) : List Photo :=
  seedPhotos photos ++ coverageAdds (individualPhotos photos) (remainingPlayers photos)

/-- JS `const maxPhotos = 12; // Show max 12 photos on homepage` -/
def maxPhotos : Nat := 12

/-- The fill pass:
`if (rotatedPhotos.length < maxPhotos) { const usedPhotoIds = new Set(rotatedPhotos.map(p => p.id)); const additionalPhotos = individualPhotos.filter(photo => !usedPhotoIds.has(photo.id)).slice(0, maxPhotos - rotatedPhotos.length); rotatedPhotos.push(...additionalPhotos); }` -/
def fillAdds (individuals : List Photo) (current : List Photo) : List Photo :=
  if current.length < maxPhotos then
    (individuals.filter
      (fun p => !(current.map Photo.id).contains p.id)).take (maxPhotos - current.length)
  else []

/-- Working selection after seed, coverage and fill passes, before the final sort. -/
def preSort (photos : List Photo) : List Photo :=
  afterCoverage photos ++ fillAdds (individualPhotos photos) (afterCoverage photos)

/-- The sort key `a.timestamp?.toDate() || 0`: milliseconds, `0` when absent. -/
def tsKey (p : Photo) : Int := p.timestamp.getD 0

/-- Stable insertion of `p` into `m` for the descending-by-`tsKey` order:
`p` goes in front of the first element whose key is not larger, so elements
with equal keys keep their original relative order. -/
def insertDesc (p : Photo) : List Photo → List Photo
  | [] => [p]
  | q :: qs => if tsKey q ≤ tsKey p then p :: q :: qs else q :: insertDesc p qs

/-- JS `rotatedPhotos.sort((a, b) => (b.timestamp?.toDate() || 0) - (a.timestamp?.toDate() || 0))`:
the unique stable sort by `tsKey` descending, as a stable insertion sort. -/
def sortDesc : List Photo → List Photo
  | [] => []
  | p :: ps => insertDesc p (sortDesc ps)

/-- The function `getRotatedPhotos` from App.js lines 974-1024, assembled from the pieces above. -/
def getRotatedPhotos (photos : List Photo) : List Photo :=
  if (publicPhotos photos).length == 0 then []
  else sortDesc (preSort photos)

/-! ## Concrete inputs used to instantiate and to refute claims -/

/-- A public photo with two tags; both tags are uncovered after the (empty)
seed, so the coverage pass adds this same record once per tag. -/
def pDup : Photo := ⟨"a", some ["P", "Q"], "public", none⟩

/-- Thirteen public photos, each carrying one distinct tag. -/
def ex13 : List Photo :=
  (List.range 13).map (fun i => ⟨toString i, some [toString i], "public", none⟩)

/-- Six team photos tagged A,B,C followed by a seventh team photo carrying
subject "X"; no individual photo carries "X". -/
def scen3 : List Photo :=
  ((List.range 6).map (fun i => ⟨toString i, some ["A", "B", "C"], "public", none⟩)) ++
    [⟨"seven", some ["X", "B", "C"], "public", none⟩]

/-- A public record whose `tags` field is absent. -/
def pNoTags : Photo := ⟨"n", none, "public", none⟩

/-- Scenario C input: seven public team photos, four pairwise disjoint tags each. -/
def scen7 : List Photo := [
  ⟨"t1", some ["a1", "b1", "c1", "d1"], "public", none⟩,
  ⟨"t2", some ["a2", "b2", "c2", "d2"], "public", none⟩,
  ⟨"t3", some ["a3", "b3", "c3", "d3"], "public", none⟩,
  ⟨"t4", some ["a4", "b4", "c4", "d4"], "public", none⟩,
  ⟨"t5", some ["a5", "b5", "c5", "d5"], "public", none⟩,
  ⟨"t6", some ["a6", "b6", "c6", "d6"], "public", none⟩,
  ⟨"t7", some ["a7", "b7", "c7", "d7"], "public", none⟩]

/-- A public photo dated before the Unix epoch (a valid store timestamp). -/
def pDated : Photo := ⟨"b", some ["Q"], "public", some (-5)⟩

/-- A public photo with no timestamp. -/
def pUndated : Photo := ⟨"a", some ["P"], "public", none⟩

/-- A single public one-tag photo, used to instantiate universal theorems. -/
def pOne : Photo := ⟨"w", some ["W"], "public", none⟩

/-- A private photo, used to instantiate the no-public-photos theorem. -/
def pPriv : Photo := ⟨"v", some ["V"], "private", none⟩

-- Sanity checks on tiny inputs (Scenario A and B of the spec).
example : getRotatedPhotos [] = [] := by decide

example :
    getRotatedPhotos [⟨"a", some ["P1"], "public", none⟩] =
      [⟨"a", some ["P1"], "public", none⟩] := by decide

/-! ## General lemmas about the embedded operations -/

theorem mem_insertDesc {a p : Photo} {m : List Photo} :
    a ∈ insertDesc p m ↔ a = p ∨ a ∈ m := by
  induction m with
  | nil => simp [insertDesc]
  | cons q qs ih =>
    simp only [insertDesc]
    split
    · simp [List.mem_cons]
    · simp only [List.mem_cons, ih]
      tauto

theorem insertDesc_perm (p : Photo) (m : List Photo) :
    List.Perm (insertDesc p m) (p :: m) := by
  induction m with
  | nil => simp [insertDesc]
  | cons q qs ih =>
    simp only [insertDesc]
    split
    · exact List.Perm.refl _
    · exact (ih.cons q).trans (List.Perm.swap p q qs)

theorem sortDesc_perm (m : List Photo) : List.Perm (sortDesc m) m := by
  induction m with
  | nil => simp [sortDesc]
  | cons p ps ih =>
    exact (insertDesc_perm p (sortDesc ps)).trans (ih.cons p)

theorem mem_sortDesc {a : Photo} {m : List Photo} : a ∈ sortDesc m ↔ a ∈ m :=
  (sortDesc_perm m).mem_iff

theorem insertDesc_sorted {p : Photo} {m : List Photo}
    (h : m.Pairwise (fun a b => tsKey b ≤ tsKey a)) :
    (insertDesc p m).Pairwise (fun a b => tsKey b ≤ tsKey a) := by
  induction m with
  | nil => simp [insertDesc]
  | cons q qs ih =>
    rcases List.pairwise_cons.1 h with ⟨hq, hqs⟩
    simp only [insertDesc]
    split
    · rename_i hle
      refine List.pairwise_cons.2 ⟨?_, h⟩
      intro b hb
      rcases List.mem_cons.1 hb with rfl | hb
      · exact hle
      · exact le_trans (hq b hb) hle
    · rename_i hlt
      refine List.pairwise_cons.2 ⟨?_, ih hqs⟩
      intro b hb
      rcases mem_insertDesc.1 hb with rfl | hb
      · exact le_of_lt (lt_of_not_le hlt)
      · exact hq b hb

theorem sortDesc_sorted (m : List Photo) :
    (sortDesc m).Pairwise (fun a b => tsKey b ≤ tsKey a) := by
  induction m with
  | nil => simp [sortDesc]
  | cons p ps ih => exact insertDesc_sorted ih

theorem filter_insertDesc (p : Photo) (m : List Photo) (k : Int) :
    (insertDesc p m).filter (fun q => tsKey q == k) =
      if tsKey p == k then p :: m.filter (fun q => tsKey q == k)
      else m.filter (fun q => tsKey q == k) := by
  induction m with
  | nil => simp [insertDesc, List.filter_cons]
  | cons q qs ih =>
    simp only [insertDesc]
    split
    · simp [List.filter_cons]
    · rename_i hlt
      have hqp : tsKey p < tsKey q := lt_of_not_le hlt
      by_cases hp : tsKey p = k
      · have hq : ¬(tsKey q = k) := by omega
        simp [List.filter_cons, ih, hp, hq]
      · have hp' : (tsKey p == k) = false := beq_eq_false_iff_ne.2 hp
        simp only [List.filter_cons, ih, hp']
        split <;> simp

theorem sortDesc_filter_key (m : List Photo) (k : Int) :
    (sortDesc m).filter (fun q => tsKey q == k) = m.filter (fun q => tsKey q == k) := by
  induction m with
  | nil => simp [sortDesc]
  | cons p ps ih =>
    simp only [sortDesc, filter_insertDesc, ih, List.filter_cons]

theorem insertDesc_eq_cons {p : Photo} {m : List Photo}
    (h : ∀ q ∈ m, tsKey q ≤ tsKey p) : insertDesc p m = p :: m := by
  cases m with
  | nil => rfl
  | cons q qs =>
    simp only [insertDesc]
    rw [if_pos (h q (List.mem_cons_self q qs))]

theorem sortDesc_eq_self {m : List Photo}
    (h : ∀ q ∈ m, q.timestamp = none) : sortDesc m = m := by
  induction m with
  | nil => rfl
  | cons p ps ih =>
    have hps : ∀ q ∈ ps, q.timestamp = none := fun q hq => h q (List.mem_cons_of_mem p hq)
    simp only [sortDesc, ih hps]
    refine insertDesc_eq_cons ?_
    intro q hq
    simp [tsKey, h q (List.mem_cons_of_mem p hq), h p (List.mem_cons_self p ps)]

theorem mem_dedupKeepFirst {a : String} : ∀ {seen m : List String},
    a ∈ dedupKeepFirst seen m ↔ a ∈ m ∧ a ∉ seen := by
  intro seen m
  induction m generalizing seen with
  | nil => simp [dedupKeepFirst]
  | cons x xs ih =>
    simp only [dedupKeepFirst]
    by_cases hx : x ∈ seen
    · rw [if_pos hx, ih]
      constructor
      · rintro ⟨h1, h2⟩
        exact ⟨List.mem_cons_of_mem x h1, h2⟩
      · rintro ⟨h1, h2⟩
        rcases List.mem_cons.1 h1 with rfl | h1
        · exact absurd hx h2
        · exact ⟨h1, h2⟩
    · rw [if_neg hx]
      simp only [List.mem_cons, ih]
      by_cases hax : a = x
      · subst hax
        simp [hx]
      · simp [hax]

theorem coverageAdds_subset {ind : List Photo} {q : Photo} :
    ∀ {rem : List String}, q ∈ coverageAdds ind rem → q ∈ ind := by
  intro rem
  induction rem with
  | nil => simp [coverageAdds]
  | cons t rest ih =>
    simp only [coverageAdds]
    cases hf : ind.find? (fun p => hasTag p t) with
    | none => exact ih
    | some q' =>
      intro hq
      rcases List.mem_cons.1 hq with rfl | hq
      · exact List.mem_of_find?_eq_some hf
      · exact ih hq

theorem coverageAdds_covers {ind : List Photo} {s : String}
    (hex : ∃ q, q ∈ ind ∧ hasTag q s = true) :
    ∀ {rem : List String}, s ∈ rem →
      ∃ q, q ∈ coverageAdds ind rem ∧ hasTag q s = true := by
  intro rem
  induction rem with
  | nil => simp
  | cons t rest ih =>
    intro hs
    rcases List.mem_cons.1 hs with rfl | hs
    · have hsome : (ind.find? (fun p => hasTag p s)).isSome = true :=
        List.find?_isSome.2 (by rcases hex with ⟨q, hq, ht⟩; exact ⟨q, hq, ht⟩)
      rcases Option.isSome_iff_exists.1 hsome with ⟨q', hf⟩
      have hp := List.find?_some hf
      refine ⟨q', ?_, by simpa using hp⟩
      simp only [coverageAdds, hf]
      exact List.mem_cons_self q' _
    · rcases ih hs with ⟨q, hq, ht⟩
      simp only [coverageAdds]
      cases hf : ind.find? (fun p => hasTag p t) with
      | none => exact ⟨q, hq, ht⟩
      | some q'' => exact ⟨q, List.mem_cons_of_mem q'' hq, ht⟩

theorem fillAdds_subset {ind cur : List Photo} {q : Photo}
    (h : q ∈ fillAdds ind cur) : q ∈ ind := by
  unfold fillAdds at h
  split at h
  · exact (List.mem_filter.1 (List.take_subset _ _ h)).1
  · exact absurd h (List.not_mem_nil q)

theorem visibility_of_mem_publicPhotos {photos : List Photo} {p : Photo}
    (h : p ∈ publicPhotos photos) : p.visibility = "public" := by
  have h2 := (List.mem_filter.1 h).2
  exact beq_iff_eq.1 h2

theorem isIndividual_of_mem_individualPhotos {photos : List Photo} {p : Photo}
    (h : p ∈ individualPhotos photos) : isIndividual p = true :=
  (List.mem_filter.1 h).2

theorem isTeam_of_mem_teamPhotos {photos : List Photo} {p : Photo}
    (h : p ∈ teamPhotos photos) : isTeam p = true :=
  (List.mem_filter.1 h).2

theorem not_isTeam_of_isIndividual {p : Photo} (h : isIndividual p = true) :
    isTeam p = false := by
  unfold isIndividual at h
  unfold isTeam
  cases hts : p.tags with
  | none => rfl
  | some ts =>
    rw [hts] at h
    simp only [decide_eq_true_eq] at h
    simp only [decide_eq_false_iff_not]
    omega

theorem tags_isSome_of_isIndividual {p : Photo} (h : isIndividual p = true) :
    p.tags.isSome = true := by
  unfold isIndividual at h
  cases hts : p.tags with
  | none => rw [hts] at h; exact absurd h (by simp)
  | some ts => rfl

theorem tags_isSome_of_isTeam {p : Photo} (h : isTeam p = true) :
    p.tags.isSome = true := by
  unfold isTeam at h
  cases hts : p.tags with
  | none => rw [hts] at h; exact absurd h (by simp)
  | some ts => rfl

theorem preSort_eq_nil {photos : List Photo} (h : publicPhotos photos = []) :
    preSort photos = [] := by
  have hteam : teamPhotos photos = [] := by simp [teamPhotos, h]
  have hind : individualPhotos photos = [] := by simp [individualPhotos, h]
  have hseed : seedPhotos photos = [] := by simp [seedPhotos, hteam]
  have hall : allPlayers photos = [] := by simp [allPlayers, h, dedupKeepFirst]
  have hrem : remainingPlayers photos = [] := by simp [remainingPlayers, hall]
  have hac : afterCoverage photos = [] := by simp [afterCoverage, hseed, hrem, coverageAdds]
  simp [preSort, hac, hind, fillAdds, maxPhotos]

theorem getRotatedPhotos_eq_sortDesc (photos : List Photo) :
    getRotatedPhotos photos = sortDesc (preSort photos) := by
  unfold getRotatedPhotos
  by_cases h : (publicPhotos photos).length = 0
  · rw [if_pos (by simpa using h), preSort_eq_nil (List.length_eq_zero.1 h)]
    rfl
  · rw [if_neg (by simpa using h)]

theorem mem_getRotatedPhotos {photos : List Photo} {p : Photo} :
    p ∈ getRotatedPhotos photos ↔ p ∈ preSort photos := by
  rw [getRotatedPhotos_eq_sortDesc, mem_sortDesc]

theorem mem_preSort_cases {photos : List Photo} {p : Photo}
    (h : p ∈ preSort photos) :
    p ∈ seedPhotos photos ∨ p ∈ individualPhotos photos := by
  rcases List.mem_append.1 h with h1 | h2
  · rcases List.mem_append.1 h1 with hs | hc
    · exact Or.inl hs
    · exact Or.inr (coverageAdds_subset hc)
  · exact Or.inr (fillAdds_subset h2)

theorem mem_publicPhotos_of_mem_getRotatedPhotos {photos : List Photo} {p : Photo}
    (h : p ∈ getRotatedPhotos photos) : p ∈ publicPhotos photos := by
  rcases mem_preSort_cases (mem_getRotatedPhotos.1 h) with hs | hi
  · exact (List.mem_filter.1 (List.take_subset _ _ hs)).1
  · exact (List.mem_filter.1 hi).1

theorem mem_tagsOrEmpty_of_hasTag {p : Photo} {s : String}
    (h : hasTag p s = true) : s ∈ tagsOrEmpty p := by
  unfold hasTag at h
  unfold tagsOrEmpty
  cases hts : p.tags with
  | none => rw [hts] at h; exact absurd h (by simp)
  | some ts => rw [hts] at h; simpa using h

theorem coverageAdds_nil_left : ∀ (rem : List String), coverageAdds [] rem = [] := by
  intro rem
  induction rem with
  | nil => rfl
  | cons t rest ih => simpa [coverageAdds, List.find?] using ih

/-! ## The claims -/

/-- Claim C1 (refuted, code bug): on the single public photo `pDup` both tags
are uncovered after the empty seed, and the coverage pass pushes the first
matching individual photo for each uncovered tag without checking whether that
record is already selected, so the output repeats id "a".  The claim that no
id appears twice in the output fails on the code. -/
theorem claim_C1_duplicate_id :
    getRotatedPhotos [pDup] = [pDup, pDup] ∧
      ¬ ((getRotatedPhotos [pDup]).map Photo.id).Nodup := by decide

/-- Claim C2 (refuted, code bug): on thirteen public one-tag photos the
coverage pass adds all thirteen, the fill pass is skipped, and no truncation
step exists, so the output has 13 elements although `maxPhotos = 12` (the
code's own comment says "Show max 12 photos on homepage"). -/
theorem claim_C2_exceeds_max :
    (getRotatedPhotos ex13).length = 13 ∧ maxPhotos = 12 := by decide

/-- Claim C3 (counterexample): in `scen3` there are only four distinct
subjects (≤ 12), yet subject "X" — carried only by the seventh team photo,
which the 6-photo seed cap excludes, and by no individual photo — appears in
no output photo's tags. -/
theorem claim_C3_counterexample :
    (allPlayers scen3).length ≤ maxPhotos ∧ "X" ∈ allPlayers scen3 ∧
      "X" ∉ (getRotatedPhotos scen3).flatMap tagsOrEmpty := by decide

/-- Claim C3 (amended): a subject among the public photos appears in the tags
of some output photo provided it is covered by the seeded team photos or some
public individual photo carries it; the subject-count bound of the original
claim alone does not suffice. -/
theorem claim_C3_coverage (photos : List Photo) (s : String)
    (hcount : (allPlayers photos).length ≤ maxPhotos)
    (hs : s ∈ allPlayers photos)
    (hcov : s ∈ featuredPlayers photos ∨
      ∃ q, q ∈ individualPhotos photos ∧ hasTag q s = true) :
    s ∈ (getRotatedPhotos photos).flatMap tagsOrEmpty := by
  rw [getRotatedPhotos_eq_sortDesc, List.mem_flatMap]
  suffices h : ∃ p, p ∈ preSort photos ∧ s ∈ tagsOrEmpty p by
    rcases h with ⟨p, hp, hsp⟩
    exact ⟨p, mem_sortDesc.2 hp, hsp⟩
  by_cases hf : s ∈ featuredPlayers photos
  · rcases List.mem_flatMap.1 hf with ⟨p, hp, hsp⟩
    refine ⟨p, ?_, hsp⟩
    unfold preSort afterCoverage
    exact List.mem_append_left _ (List.mem_append_left _ hp)
  · rcases hcov with hf' | ⟨q, hq, ht⟩
    · exact absurd hf' hf
    · have hrem : s ∈ remainingPlayers photos := by
        unfold remainingPlayers
        rw [List.mem_filter]
        exact ⟨hs, by simp [hf]⟩
      rcases coverageAdds_covers ⟨q, hq, ht⟩ hrem with ⟨q', hq', ht'⟩
      refine ⟨q', ?_, mem_tagsOrEmpty_of_hasTag ht'⟩
      unfold preSort afterCoverage
      exact List.mem_append_left _ (List.mem_append_right _ hq')

/-- Claim C3 amended, instantiated: on a one-photo input the single subject
"W" is carried by a public individual photo and indeed appears in the output. -/
theorem claim_C3_coverage_witness :
    "W" ∈ allPlayers [pOne] ∧ "W" ∈ (getRotatedPhotos [pOne]).flatMap tagsOrEmpty :=
  ⟨by decide, claim_C3_coverage [pOne] "W" (by decide) (by decide)
    (Or.inr ⟨pOne, by decide, by decide⟩)⟩

/-- Claim C4 (counterexample): the public record `pNoTags`, whose `tags` field
is absent, passes neither classification filter (`photo.tags && ...` is falsy),
so it is not a fill candidate and the output is empty, not `[pNoTags]`. -/
theorem claim_C4_counterexample :
    pNoTags.visibility = "public" ∧ getRotatedPhotos [pNoTags] = [] := by decide

/-- Claim C4 (amended): a record whose `tags` field is absent is classified as
neither team nor individual, so it can never appear in the output (and the
selection still returns a defined, error-free result on such inputs):
every output photo has a present `tags` field. -/
theorem claim_C4_no_tags_excluded (photos : List Photo) (p : Photo)
    (h : p ∈ getRotatedPhotos photos) : p.tags.isSome = true := by
  rcases mem_preSort_cases (mem_getRotatedPhotos.1 h) with hs | hi
  · exact tags_isSome_of_isTeam (isTeam_of_mem_teamPhotos (List.take_subset _ _ hs))
  · exact tags_isSome_of_isIndividual (isIndividual_of_mem_individualPhotos hi)

/-- Claim C4 amended, instantiated at a one-photo input. -/
theorem claim_C4_no_tags_excluded_witness :
    pOne ∈ getRotatedPhotos [pOne] ∧ pOne.tags.isSome = true :=
  ⟨by decide, claim_C4_no_tags_excluded [pOne] pOne (by decide)⟩

/-- Claim C5 (confirmed): with seven public team photos (four pairwise
disjoint tags each, all undated) the seed takes exactly the first six in input
order, the coverage and fill passes find no individual photos, and the stable
sort leaves the all-equal keys alone, so the output is exactly the first six
team photos in input order, independently of `maxPhotos = 12`. -/
theorem claim_C5_seed_cap (l : List Photo)
    (hlen : l.length = 7)
    (hvis : ∀ p ∈ l, p.visibility = "public")
    (hts : ∀ p ∈ l, p.timestamp = none)
    (htags : ∀ p ∈ l, p.tags.isSome = true ∧ (tagsOrEmpty p).length = 4)
    (hdisj : l.Pairwise (fun p q => ∀ t ∈ tagsOrEmpty p, t ∉ tagsOrEmpty q)) :
    getRotatedPhotos l = l.take 6 := by
  have hpub : publicPhotos l = l := by
    unfold publicPhotos
    rw [List.filter_eq_self]
    intro p hp
    exact beq_iff_eq.2 (hvis p hp)
  have hteam : teamPhotos l = l := by
    unfold teamPhotos
    rw [hpub, List.filter_eq_self]
    intro p hp
    rcases htags p hp with ⟨hsome, hfour⟩
    rcases Option.isSome_iff_exists.1 hsome with ⟨ts, hts'⟩
    have : ts.length = 4 := by
      rw [← hfour]
      simp [tagsOrEmpty, hts']
    simp [isTeam, hts', this]
  have hind : individualPhotos l = [] := by
    unfold individualPhotos
    rw [hpub, List.filter_eq_nil]
    intro p hp
    rcases htags p hp with ⟨hsome, hfour⟩
    rcases Option.isSome_iff_exists.1 hsome with ⟨ts, hts'⟩
    have : ts.length = 4 := by
      rw [← hfour]
      simp [tagsOrEmpty, hts']
    simp [isIndividual, hts', this]
  have hseed : seedPhotos l = l.take 6 := by
    unfold seedPhotos
    rw [hteam]
  have hac : afterCoverage l = l.take 6 := by
    unfold afterCoverage
    rw [hseed, hind, coverageAdds_nil_left, List.append_nil]
  have hfill : fillAdds (individualPhotos l) (afterCoverage l) = [] := by
    rw [hind]
    unfold fillAdds
    split <;> simp
  have hpre : preSort l = l.take 6 := by
    unfold preSort
    rw [hfill, hac, List.append_nil]
  rw [getRotatedPhotos_eq_sortDesc, hpre]
  exact sortDesc_eq_self (fun q hq => hts q (List.take_subset _ _ hq))

/-- Claim C5, instantiated at Scenario C's seven-team-photo input. -/
theorem claim_C5_seed_cap_witness :
    scen7.length = 7 ∧ getRotatedPhotos scen7 = scen7.take 6 :=
  ⟨by decide, claim_C5_seed_cap scen7 (by decide) (by decide) (by decide)
    (by decide) (by decide)⟩

/-- Claim C6 (counterexample): on input `[pDated, pUndated]` — a photo dated
before the Unix epoch followed by an undated photo — the sort key of an absent
timestamp is 0, which exceeds the dated photo's key -5, so the undated photo
sorts *before* a dated one, refuting "records with a missing timestamp sort
after all records with a timestamp". -/
theorem claim_C6_counterexample :
    getRotatedPhotos [pDated, pUndated] = [pUndated, pDated] ∧
      pUndated.timestamp = none ∧ pDated.timestamp = some (-5) := by decide

/-- Claim C6 (amended): the output is sorted by the key "timestamp, with a
missing timestamp counting as 0 (the epoch)" in descending order, and the sort
is stable: for every key value, the output lists exactly the working-selection
records with that key in their original relative order.  Undated records
therefore sort after records with positive timestamps but not after records
dated at or before the epoch. -/
theorem claim_C6_sorted_stable (photos : List Photo) :
    (getRotatedPhotos photos).Pairwise (fun a b => tsKey b ≤ tsKey a) ∧
      ∀ k : Int, (getRotatedPhotos photos).filter (fun q => tsKey q == k) =
        (preSort photos).filter (fun q => tsKey q == k) := by
  rw [getRotatedPhotos_eq_sortDesc]
  exact ⟨sortDesc_sorted _, fun k => sortDesc_filter_key _ k⟩

/-- Claim C6 amended, instantiated at a one-photo input and key 0. -/
theorem claim_C6_sorted_stable_witness :
    (getRotatedPhotos [pUndated]).Pairwise (fun a b => tsKey b ≤ tsKey a) ∧
      (getRotatedPhotos [pUndated]).filter (fun q => tsKey q == 0) =
        (preSort [pUndated]).filter (fun q => tsKey q == 0) :=
  ⟨(claim_C6_sorted_stable [pUndated]).1, (claim_C6_sorted_stable [pUndated]).2 0⟩

/-- Claim C7 (confirmed): every output photo was drawn from the
public-filtered pools, so no output photo is private. -/
theorem claim_C7_no_private (photos : List Photo) (p : Photo)
    (h : p ∈ getRotatedPhotos photos) : p.visibility ≠ "private" := by
  have hv := visibility_of_mem_publicPhotos (mem_publicPhotos_of_mem_getRotatedPhotos h)
  rw [hv]
  decide

/-- Claim C7, instantiated at a one-photo input. -/
theorem claim_C7_no_private_witness :
    pOne ∈ getRotatedPhotos [pOne] ∧ pOne.visibility ≠ "private" :=
  ⟨by decide, claim_C7_no_private [pOne] pOne (by decide)⟩

/-- Claim C8 (confirmed): when no record is public (in particular on the empty
input) the public filter leaves nothing and the function returns `[]` as a
valid result. -/
theorem claim_C8_no_public_empty (photos : List Photo)
    (h : ∀ p ∈ photos, p.visibility ≠ "public") : getRotatedPhotos photos = [] := by
  have hpub : publicPhotos photos = [] := by
    unfold publicPhotos
    rw [List.filter_eq_nil]
    intro p hp
    simp [h p hp]
  simp [getRotatedPhotos, hpub]

/-- Claim C8, instantiated at a one-private-photo input. -/
theorem claim_C8_no_public_empty_witness :
    pPriv.visibility ≠ "public" ∧ getRotatedPhotos [pPriv] = [] :=
  ⟨by decide, claim_C8_no_public_empty [pPriv] (by decide)⟩

/-- Claim C9 (confirmed): the selection is a pure function of the snapshot
passed to it — the embedding threads no state between calls — so two runs on
equal snapshots return equal outputs. -/
theorem claim_C9_deterministic (photos1 photos2 : List Photo)
    (h : photos1 = photos2) : getRotatedPhotos photos1 = getRotatedPhotos photos2 :=
  congrArg getRotatedPhotos h

/-- Claim C9, instantiated: two runs on the same one-photo snapshot agree. -/
theorem claim_C9_deterministic_witness :
    getRotatedPhotos [pOne] = getRotatedPhotos [pOne] :=
  claim_C9_deterministic [pOne] [pOne] rfl

/-- Claim C10 (confirmed): the seed contributes at most 6 team photos and the
coverage and fill passes draw only from the individual pool (fewer than 3
tags), so the whole output never holds more than 6 team photos. -/
theorem claim_C10_team_cap (photos : List Photo) :
    (getRotatedPhotos photos).countP isTeam ≤ 6 := by
  rw [getRotatedPhotos_eq_sortDesc, (sortDesc_perm _).countP_eq isTeam]
  unfold preSort afterCoverage
  rw [List.countP_append, List.countP_append]
  have hcov : (coverageAdds (individualPhotos photos) (remainingPlayers photos)).countP
      isTeam = 0 := by
    rw [List.countP_eq_zero]
    intro a ha
    simp [not_isTeam_of_isIndividual
      (isIndividual_of_mem_individualPhotos (coverageAdds_subset ha))]
  have hfill : (fillAdds (individualPhotos photos)
      (seedPhotos photos ++ coverageAdds (individualPhotos photos)
        (remainingPlayers photos))).countP isTeam = 0 := by
    rw [List.countP_eq_zero]
    intro a ha
    simp [not_isTeam_of_isIndividual
      (isIndividual_of_mem_individualPhotos (fillAdds_subset ha))]
  have hseed : (seedPhotos photos).countP isTeam ≤ 6 := by
    calc (seedPhotos photos).countP isTeam ≤ (seedPhotos photos).length :=
          List.countP_le_length isTeam
    _ ≤ 6 := by simp [seedPhotos, List.length_take]
  omega

/-- Claim C10, instantiated at Scenario C's input: six of the seven team
photos are in the output, within the cap. -/
theorem claim_C10_team_cap_witness :
    (getRotatedPhotos scen7).countP isTeam ≤ 6 := claim_C10_team_cap scen7
